import Mathlib

/-!
Verification development for the dwd-divera-neuss alert scripts.

The Python sources are shallowly embedded:
* timestamps (ISO strings compared lexicographically in the source, all of a
  fixed `YYYY-MM-DDTHH:MM` layout, hence order-isomorphic to minute counts)
  are modelled as natural numbers counting minutes;
* floats are modelled as rationals;
* `None` becomes `Option`;
* network effects (HTTP responses, their success/failure, random jitter,
  the current clock) are passed in as explicit parameters, so every
  function is pure and executable.
-/

namespace DwdDivera

/-! ## fire_danger_watch.py : data model -/

/-- One validated hourly sample as produced by `_timeseries`
(fields `time`, `t`, `rh`, `ws`, `wg` of the Python row dict). -/
structure Row where
  time : ℕ
  t : ℚ
  rh : ℚ
  ws : ℚ
  wg : ℚ
  deriving DecidableEq, Repr

/-- The threshold configuration `TMAX_C`, `RH_MIN`, `WIND_MEAN_KMH`,
`WIND_GUST_KMH` (environment-derived constants in the source). -/
structure FireCfg where
  tmaxC : ℚ
  rhMin : ℚ
  windMeanKmh : ℚ
  windGustKmh : ℚ
  deriving DecidableEq, Repr

/-- The default thresholds of the source (`30`, `30`, `25`, `30`). -/
def defaultFireCfg : FireCfg := ⟨30, 30, 25, 30⟩

/-- `_ok`: the compound AND rule
`row["t"] > TMAX_C and row["rh"] < RH_MIN and (row["ws"] > WIND_MEAN_KMH or row["wg"] > WIND_GUST_KMH)`. -/
def fireOk (cfg : FireCfg) (r : Row) : Bool :=
  decide (r.t > cfg.tmaxC) && decide (r.rh < cfg.rhMin) &&
    (decide (r.ws > cfg.windMeanKmh) || decide (r.wg > cfg.windGustKmh))

/-- Loop state and accumulator of `_windows_ok`.  The Python loop keeps two
variables `cur_start` and `last_time`; they are always both `None` or both
set (both are assigned on a true sample with `cur_start is None`, and both
are reset together when a window is closed), so the pair is modelled as one
`Option (ℕ × ℕ)`.  A false sample with an open window appends
`(cur_start, last_time)` and resets; the trailing open window is appended
after the loop. -/
def windowsOkAux (cfg : FireCfg) : Option (ℕ × ℕ) → List Row → List (ℕ × ℕ)
  | some w, [] => [w]
  | none, [] => []
  | st, r :: rs =>
    if fireOk cfg r then
      match st with
      | none => windowsOkAux cfg (some (r.time, r.time)) rs
      | some (s, _) => windowsOkAux cfg (some (s, r.time)) rs
    else
      match st with
      | some w => w :: windowsOkAux cfg none rs
      | none => windowsOkAux cfg none rs

/-- `_windows_ok`: contiguous windows `(start, end)` on which the AND rule
holds, scanned left to right. -/
def windowsOk (cfg : FireCfg) (rows : List Row) : List (ℕ × ℕ) :=
  windowsOkAux cfg none rows

/-! ## fire_danger_watch.py : `_timeseries` -/

/-- The `hourly` block of an Open-Meteo response: aligned arrays of
timestamps and (nullable) measurement values. -/
structure HourlyData where
  times : List ℕ
  temps : List (Option ℚ)
  hums : List (Option ℚ)
  winds : List (Option ℚ)
  gusts : List (Option ℚ)
  deriving Repr

/-- `_timeseries`: align the arrays on the shortest length, drop an hour
when temperature, humidity or wind mean is null, and fall back to the wind
mean when only the gust is null. -/
def timeseries (d : HourlyData) : List Row :=
  let n := min (min (min (min d.times.length d.temps.length) d.hums.length)
    d.winds.length) d.gusts.length
  (List.range n).filterMap fun i =>
    match d.times[i]?, d.temps[i]?, d.hums[i]?, d.winds[i]?, d.gusts[i]? with
    | some ts, some (some t), some (some rh), some (some ws), some wgOpt =>
      some { time := ts, t := t, rh := rh, ws := ws, wg := wgOpt.getD ws }
    | _, _, _, _, _ => none

/-! ## fire_danger_watch.py : daily mode -/

/-- `end_dt.replace(minute=0)` of `run_daily` on a minute-counted
timestamp: the minute field is zeroed, i.e. the time is floored to the
full hour. -/
def floorHour (ts : ℕ) : ℕ := 60 * (ts / 60)

/-- The validity end printed by `run_daily`: the end of the last window,
with the minute field zeroed (`end_dt.replace(minute=0)`); `none` when no
window exists (no notification is sent then). -/
def dailyValidityEnd (cfg : FireCfg) (rows : List Row) : Option ℕ :=
  match (windowsOk cfg rows).getLast? with
  | some w => some (floorHour w.2)
  | none => none

/-! ## fire_danger_watch.py : acute mode (hysteresis) -/

/-- The parsed `current` block of the forecast response: temperature,
humidity, wind mean, and nullable gust (`wg = float(ws if wg is None else wg)`). -/
structure CurSample where
  t : ℚ
  rh : ℚ
  ws : ℚ
  wg : Option ℚ
  deriving Repr

/-- `ok_now` of `run_acute`, including the null-gust fallback to the wind
mean. -/
def acuteOkNow (cfg : FireCfg) (c : CurSample) : Bool :=
  decide (c.t > cfg.tmaxC) && decide (c.rh < cfg.rhMin) &&
    (decide (c.ws > cfg.windMeanKmh) || decide (c.wg.getD c.ws > cfg.windGustKmh))

/-- The persisted acute state: `acute_armed` (defaults to `true`) and
`acute_event_start_iso`. -/
structure AcuteState where
  armed : Bool
  eventStart : Option ℕ
  deriving DecidableEq, Repr

/-- Initial state of a fresh state file: `st.get("acute_armed", True)`. -/
def initialAcuteState : AcuteState := ⟨true, none⟩

/-- Everything one invocation of `run_acute` observes from outside:
the parsed current sample (`none` when the response is missing or
unparsable), the validated hourly rows, the current wall clock floored to
the hour (`now.replace(minute=0, ...)`), and whether the DIVERA post
succeeds. -/
structure AcuteInput where
  cur : Option CurSample
  rows : List Row
  nowIso : ℕ
  postOk : Bool

/-- One invocation of `run_acute`, returning the new persisted state and
the list (length 0 or 1) of sent notifications, each carrying its
`Geltungsdauer von/bis` pair.  The forecast end is the end of the window
of `_windows_ok` containing the start hour, else start + one hour. -/
def runAcuteStep (cfg : FireCfg) (st : AcuteState) (inp : AcuteInput) :
    AcuteState × List (ℕ × ℕ) :=
  match inp.cur with
  | none => (st, [])
  | some c =>
    if acuteOkNow cfg c then
      if st.armed then
        match inp.rows with
        | [] => (st, [])
        | _ :: _ =>
          let wins := windowsOk cfg inp.rows
          let endIso := match wins.find? fun w =>
              decide (w.1 ≤ inp.nowIso) && decide (inp.nowIso ≤ w.2) with
            | some w => w.2
            | none => inp.nowIso + 60
          if inp.postOk then
            ({ armed := false, eventStart := some inp.nowIso },
              [(inp.nowIso, endIso)])
          else (st, [])
      else (st, [])
    else
      if !st.armed then ({ armed := true, eventStart := none }, [])
      else (st, [])

/-- A sequence of `run_acute` invocations threading the persisted state,
collecting the sent notifications. -/
def runAcuteSeq (cfg : FireCfg) (st : AcuteState) :
    List AcuteInput → AcuteState × List (ℕ × ℕ)
  | [] => (st, [])
  | inp :: rest =>
    let r := runAcuteStep cfg st inp
    let rr := runAcuteSeq cfg r.1 rest
    (rr.1, r.2 ++ rr.2)

/-- Count of false-to-true transitions in a boolean trace, given the value
preceding the trace. -/
def countRises : Bool → List Bool → ℕ
  | _, [] => 0
  | prev, b :: bs => (if b && !prev then 1 else 0) + countRises b bs

/-- Rising edges of a boolean trace, the value before the first sample
taken as `false`. -/
def risingEdges (l : List Bool) : ℕ := countRises false l

/-- The point evaluation one `run_acute` invocation observes: `ok_now`
when current data was parsed, `false` on the unparsable early-return. -/
def acuteObservedOk (cfg : FireCfg) (inp : AcuteInput) : Bool :=
  match inp.cur with
  | some c => acuteOkNow cfg c
  | none => false

/-! ## Retrying transport

Both repositories share one loop shape,
`for attempt in range(1, RETRIES + 1): try ... except: if attempt == RETRIES:
return FAILURE; time.sleep(sleep_for(attempt))`.
`resp k` is the outcome of HTTP attempt `k` (`none` = exception or status
rejection), `sleepFor k` the duration slept after a failed attempt `k`.
The loops differ only in `sleepFor` and in the definitive failure value. -/

/-- The shared GET retry loop: result together with the list of sleeps
performed, attempts numbered from `attempt`, at most `fuel` attempts left. -/
def retryGo (resp : ℕ → Option α) (sleepFor : ℕ → ℚ) :
    ℕ → ℕ → Option α × List ℚ
  | _, 0 => (none, [])
  | attempt, fuel + 1 =>
    match resp attempt with
    | some v => (some v, [])
    | none =>
      if fuel = 0 then (none, [])
      else
        let r := retryGo resp sleepFor (attempt + 1) fuel
        (r.1, sleepFor attempt :: r.2)

/-- `_get_json_with_retries` of dwd2divera.py (same schedule in
`_get_text_with_retries`, pegel_watch `_jget`/`_get_text`/`_post_divera`
and alarm_broadcast `_jget`/`_jpost`):
`sleep_s = (2 ** (attempt - 1)) + random.uniform(0, 0.5)`, jitter passed in
as `jit`.  Returns `none` after the final failed attempt. -/
def getJsonWithRetries (resp : ℕ → Option α) (jit : ℕ → ℚ) (retries : ℕ) :
    Option α × List ℚ :=
  retryGo resp (fun k => 2 ^ (k - 1) + jit k) 1 retries

/-- `fetch_forecast` of fire_danger_watch.py: same loop, but
`time.sleep(1.5 * attempt)` — linear backoff, no jitter.
(fire_danger `_post_divera` uses the same schedule.) -/
def fetchForecastRetry (resp : ℕ → Option α) (retries : ℕ) :
    Option α × List ℚ :=
  retryGo resp (fun k => 3 / 2 * k) 1 retries

/-! ## dwd2divera.py : severity, filters, dedup keys -/

/-- `SEVERITY_ORDER.get(s, dflt)` over the table
`{"":0, "unknown":0, "minor":1, "moderate":2, "severe":3, "extreme":4}`. -/
def severityOrder (s : String) (dflt : ℕ) : ℕ :=
  if s = "" then 0
  else if s = "unknown" then 0
  else if s = "minor" then 1
  else if s = "moderate" then 2
  else if s = "severe" then 3
  else if s = "extreme" then 4
  else dflt

/-- Python `needle in haystack` on strings (substring containment). -/
def strContains (hay needle : String) : Bool :=
  decide (needle.toList <:+: hay.toList)

/-- One normalized DWD warning record as built by `fetch_dwd_warnings`.
Missing text fields are encoded as `""` (Python `or ""` / falsy handling);
`severity` and `event` are stored lowercased as in the source. -/
structure Warn where
  identifier : String
  headline : String
  sent : String
  warncellid : String
  severity : String
  event : String
  deriving DecidableEq, Repr

/-- The filter and channel configuration of dwd2divera.py
(`SEVERITY_MIN`, `EVENT_ALLOW`, `EVENT_DENY`, `RIC_INFO`, `RIC_EINSATZ`,
`SEVERITY_THRESHOLD_RIC2`), keyword lists already lowercased. -/
structure DwdCfg where
  severityMin : String
  eventAllow : List String
  eventDeny : List String
  ricInfo : String
  ricEinsatz : String
  sevThresholdRic2 : String
  deriving Repr

/-- `passes_filters_global`. -/
def passesFiltersGlobal (cfg : DwdCfg) (w : Warn) : Bool :=
  (if cfg.severityMin = "" then true
    else decide (severityOrder w.severity 0 ≥ severityOrder cfg.severityMin 0))
  && (if cfg.eventAllow = [] then true
    else cfg.eventAllow.any fun k => strContains w.event k)
  && (if cfg.eventDeny = [] then true
    else !(cfg.eventDeny.any fun k => strContains w.event k))

/-- `is_unwetter_for_ric2` (note the default `3` when the configured
threshold string is unknown). -/
def isUnwetterForRic2 (cfg : DwdCfg) (w : Warn) : Bool :=
  decide (severityOrder w.severity 0 ≥ severityOrder cfg.sevThresholdRic2 3)

/-- `ident = w.get("identifier") or f"{headline}|{sent}|{warncellid}"`
(an absent or empty identifier falls back to the composite). -/
def identOf (w : Warn) : String :=
  if w.identifier ≠ "" then w.identifier
  else w.headline ++ "|" ++ w.sent ++ "|" ++ w.warncellid

/-- `already_info = (key_info in seen) or (ident in seen)` — the Info
channel accepts the composite key or the legacy bare identity. -/
def alreadyInfo (seen : List String) (ident ricInfo : String) : Bool :=
  decide ((ident ++ "|" ++ ricInfo) ∈ seen) || decide (ident ∈ seen)

/-- `already_einsatz = (key_einsatz in seen)` — the Einsatz channel
checks only the composite key. -/
def alreadyEinsatz (seen : List String) (ident ricEinsatz : String) : Bool :=
  decide ((ident ++ "|" ++ ricEinsatz) ∈ seen)

/-- Mutable run state of dwd2divera `main`: the `new_seen` set (modelled
as a list) and the three counters. -/
structure DwdRunState where
  newSeen : List String
  total : ℕ
  info : ℕ
  einsatz : ℕ
  deriving DecidableEq, Repr

/-- The body of the `for w in warnings` loop of dwd2divera `main` for one
warning.  `seen` is the set loaded at run start (lookups go against it,
additions go to `st.newSeen`, exactly as in the source).  `okInfo` /
`okEinsatz` report whether the respective `post_to_divera` call succeeds
(an exception is caught, logged, and the key is not added). -/
def processWarning (cfg : DwdCfg) (seen : List String) (st : DwdRunState)
    (w : Warn) (okInfo okEinsatz : Bool) : DwdRunState :=
  if passesFiltersGlobal cfg w = false then st
  else
    let ident := identOf w
    let keyInfo := ident ++ "|" ++ cfg.ricInfo
    let st1 :=
      if alreadyInfo seen ident cfg.ricInfo then st
      else if okInfo then
        { st with
          newSeen := (keyInfo :: st.newSeen)
          total := st.total + 1
          info := st.info + 1 }
      else st
    if isUnwetterForRic2 cfg w then
      let keyEinsatz := ident ++ "|" ++ cfg.ricEinsatz
      if alreadyEinsatz seen ident cfg.ricEinsatz then st1
      else if okEinsatz then
        { st1 with
          newSeen := (keyEinsatz :: st1.newSeen)
          total := st1.total + 1
          einsatz := st1.einsatz + 1 }
      else st1
    else st1

/-- dwd2divera `main`: fold the warning list (each paired with its two
delivery outcomes) over the initial state `new_seen = set(seen)`;
the final `newSeen` is what `save_seen` persists. -/
def runDwdMain (cfg : DwdCfg) (seen : List String)
    (inputs : List (Warn × Bool × Bool)) : DwdRunState :=
  inputs.foldl (fun st i => processWarning cfg seen st i.1 i.2.1 i.2.2)
    ⟨seen, 0, 0, 0⟩

/-! ## dwd2divera.py : Warnlagebericht cache -/

/-- The persisted cache record (`warnlage_cache.json`): keys `issue`,
`text`, `hash`, `saved_ts`, `no_marker`.  An empty dict has every field
absent and `noMarker = false` (a missing key is falsy). -/
structure WarnCache where
  issue : Option String
  text : Option String
  hash : Option String
  savedTs : Option ℤ
  noMarker : Bool
  deriving DecidableEq, Repr

/-- Python truthiness of `cache.get("text")`: present and non-empty. -/
def cacheTextOk (c : WarnCache) : Bool :=
  match c.text with
  | some t => decide (t ≠ "")
  | none => false

/-- Python truthiness of `cache.get("saved_ts")`: present and non-zero. -/
def cacheSavedTsOk (c : WarnCache) : Bool :=
  match c.savedTs with
  | some n => decide (n ≠ 0)
  | none => false

/-- The pre-fetch shortcut of `fetch_warnlagebericht_nrw_cached`:
a marker-less entry within TTL is returned without fetching at all. -/
def warnShortcut (ttl : ℤ) (cache : WarnCache) (nowTs : ℤ) : Bool :=
  cache.noMarker && cacheSavedTsOk cache &&
    decide (nowTs - cache.savedTs.getD 0 < ttl) && cacheTextOk cache

/-- `fetch_warnlagebericht_nrw_cached`.  The HTML fetch and the regex
extraction are the I/O boundary and are passed in: `fetched = none` models
a failed fetch, otherwise `fetched = some (issue, chosenText)` carries the
extracted issue marker and the chosen text segment
(`(entwicklung or fulltext or "").strip()`).  `hashFn` abstracts
`hashlib.sha256(...).hexdigest()`.  Returns the delivered text, the cache
after the call, and whether `_save_warnlage_cache` ran (a replace). -/
def fetchWarnlageCached (hashFn : String → String) (ttl : ℤ)
    (cache : WarnCache) (nowTs : ℤ)
    (fetched : Option (Option String × String)) :
    Option String × WarnCache × Bool :=
  if warnShortcut ttl cache nowTs then (cache.text, cache, false)
  else
    match fetched with
    | none => (cache.text, cache, false)
    | some (issue, chosenText) =>
      if chosenText = "" then (none, cache, false)
      else
        let textHash := hashFn chosenText
        match issue with
        | some iss =>
          if cache.issue = some iss ∧ cacheTextOk cache then
            (cache.text, cache, false)
          else
            (some chosenText,
              ⟨some iss, some chosenText, some textHash, some nowTs, false⟩,
              true)
        | none =>
          if cache.noMarker ∧ cache.hash = some textHash ∧ cacheTextOk cache
              ∧ nowTs - cache.savedTs.getD 0 < ttl then
            (cache.text, cache, false)
          else
            (some chosenText,
              ⟨none, some chosenText, some textHash, some nowTs, true⟩,
              true)

/-! ## Logged failure messages -/

/-- Python slicing `s[:n]`: the first `n` characters of a string. -/
def strTake (s : String) (n : ℕ) : String :=
  ⟨s.data.take n⟩

/-- The `RuntimeError` text of dwd2divera `post_to_divera` on a rejected
response: `f"DIVERA API Fehler {r.status_code}: {r.text[:500]}"`. -/
def dwdPostErrMsg (status : ℕ) (body : String) : String :=
  "DIVERA API Fehler " ++ toString status ++ ": " ++ strTake body 500

/-- The log line of dwd2divera `main` when a post raises:
`f"[Fehler] DIVERA-Post ({channel}): {e}"`. -/
def dwdLogLine (channel : String) (errMsg : String) : String :=
  "[Fehler] DIVERA-Post (" ++ channel ++ "): " ++ errMsg

/-- The `RuntimeError` text of pegel_watch `_post_divera` (and
fire_danger_watch `_post_divera`, with 400 characters):
`f"HTTP {r.status_code}: {r.text[:400]}"`. -/
def pegelPostErrMsg (status : ℕ) (body : String) : String :=
  "HTTP " ++ toString status ++ ": " ++ strTake body 400

/-- The final log line of pegel_watch `_post_divera`:
`f"[Warn] DIVERA send failed after {HTTP_RETRIES} tries: {e}"`. -/
def pegelLogLine (retries : ℕ) (errMsg : String) : String :=
  "[Warn] DIVERA send failed after " ++ toString retries ++ " tries: " ++ errMsg

/-- The `RuntimeError` text of alarm_broadcast `_jpost`:
`f"HTTP {r.status_code}"` (the source comments `# Body nicht loggen`). -/
def alarmJpostErrMsg (status : ℕ) : String :=
  "HTTP " ++ toString status

/-- The final log line of alarm_broadcast `_jpost`:
`f"[Warn] POST failed after {retries} tries: {type(e).__name__}"` — only
the exception class name is echoed. -/
def alarmPostLogLine (retries : ℕ) (excName : String) : String :=
  "[Warn] POST failed after " ++ toString retries ++ " tries: " ++ excName

/-! ## alarm_broadcast.py : single-key dual-channel dispatch -/

/-- alarm_broadcast `main` after a successful `last-alarm` fetch and field
extraction: `key = f"alarm:{alarm_id}"` is looked up in the seen set; if
new, the sub-unit news post and the Telegram post are attempted (each only
when configured), and the key is added when at least one send succeeded.
Returns (persisted seen set, sent_sub, sent_tg). -/
def alarmRun (seen : List String) (key : String)
    (subConfigured tgConfigured okNews okTg : Bool) :
    List String × Bool × Bool :=
  if key ∈ seen then (seen, false, false)
  else
    let sentSub := subConfigured && okNews
    let sentTg := tgConfigured && okTg
    if sentSub || sentTg then (key :: seen, sentSub, sentTg)
    else (seen, sentSub, sentTg)

/-! ## pegel_watch.py : threshold flag persistence -/

/-- One gauge's slice of pegel_watch `main`: when a value was fetched,
`above_new = cm >= THRESHOLD` decides the rising-edge send, and the
persisted flag is set to `above_new` whether or not `_post_divera`
succeeded; with no value the stored flag is left untouched.
Returns (persisted flag, notifications sent). -/
def pegelGaugeStep (threshold : ℤ) (aboveOld : Bool) (cm : Option ℤ)
    (postOk : Bool) : Bool × ℕ :=
  match cm with
  | none => (aboveOld, 0)
  | some v =>
    let aboveNew := decide (v ≥ threshold)
    ((aboveNew : Bool),
      if aboveNew && !aboveOld then (if postOk then 1 else 0) else 0)

/-- A sequence of pegel_watch runs for one gauge, threading the persisted
flag and summing the sent notifications. -/
def pegelRuns (threshold : ℤ) : Bool → List (Option ℤ × Bool) → Bool × ℕ
  | ab, [] => (ab, 0)
  | ab, (cm, p) :: rest =>
    let r := pegelGaugeStep threshold ab cm p
    let rr := pegelRuns threshold r.1 rest
    (rr.1, r.2 + rr.2)

/-! ## Concrete test fixtures used by witnesses and counterexamples -/

/-- A day of 24 hourly samples (minutes since midnight) satisfying the
default rule exactly at 14:00 and 15:00: `temp 35 > 30`, `rh 20 < 30`,
`windMean 30 > 25` there, temperature `10` everywhere else. -/
def c3Rows : List Row :=
  (List.range 24).map fun h =>
    if h = 14 ∨ h = 15 then ⟨60 * h, 35, 20, 30, 0⟩ else ⟨60 * h, 10, 20, 30, 0⟩

/-- Hourly arrays for 14:00–16:00 where the 15:00 sample has a null
temperature (dropped) and the 16:00 sample a null gust (kept, fallback);
14:00 and 16:00 satisfy the default rule. -/
def c8Data : HourlyData :=
  ⟨[840, 900, 960],
    [some 35, none, some 35],
    [some 20, some 20, some 20],
    [some 30, some 30, some 30],
    [some 0, some 0, none]⟩

/-- A cache entry as written by a marker-bearing fetch of text `"T"`
(fingerprint recorded by the identity hash), saved at time 100. -/
def c7MarkerCache : WarnCache := ⟨some "A", some "T", some "T", some 100, false⟩

/-- An acute-mode input whose current sample satisfies the default rule. -/
def c2HotInput : AcuteInput :=
  ⟨some ⟨35, 20, 30, none⟩, [⟨840, 35, 20, 30, 0⟩], 840, true⟩

/-- An acute-mode input whose current sample fails the default rule. -/
def c2CoolInput : AcuteInput :=
  ⟨some ⟨10, 20, 30, none⟩, [⟨840, 10, 20, 30, 0⟩], 840, true⟩

/-! # Theorems -/

/-! ## Window evaluation: unfolding lemmas -/

theorem windowsOkAux_nil_some (cfg : FireCfg) (w : ℕ × ℕ) :
    windowsOkAux cfg (some w) [] = [w] := rfl

theorem windowsOkAux_nil_none (cfg : FireCfg) :
    windowsOkAux cfg none [] = [] := rfl

theorem windowsOkAux_cons_ok_none (cfg : FireCfg) {r : Row} (rs : List Row)
    (h : fireOk cfg r = true) :
    windowsOkAux cfg none (r :: rs) =
      windowsOkAux cfg (some (r.time, r.time)) rs := by
  simp [windowsOkAux, h]

theorem windowsOkAux_cons_ok_some (cfg : FireCfg) {r : Row} (rs : List Row)
    (s e : ℕ) (h : fireOk cfg r = true) :
    windowsOkAux cfg (some (s, e)) (r :: rs) =
      windowsOkAux cfg (some (s, r.time)) rs := by
  simp [windowsOkAux, h]

theorem windowsOkAux_cons_notok_some (cfg : FireCfg) {r : Row} (rs : List Row)
    (w : ℕ × ℕ) (h : fireOk cfg r = false) :
    windowsOkAux cfg (some w) (r :: rs) = w :: windowsOkAux cfg none rs := by
  simp [windowsOkAux, h]

theorem windowsOkAux_cons_notok_none (cfg : FireCfg) {r : Row} (rs : List Row)
    (h : fireOk cfg r = false) :
    windowsOkAux cfg none (r :: rs) = windowsOkAux cfg none rs := by
  simp [windowsOkAux, h]

/-! ## Window evaluation: structural lemmas -/

/-- Every produced window starts either at the pending start carried in
the state or at the time of a rule-satisfying row of the remaining input. -/
theorem windowsOkAux_start_mem (cfg : FireCfg) (rows : List Row) :
    ∀ (st : Option (ℕ × ℕ)) (w : ℕ × ℕ), w ∈ windowsOkAux cfg st rows →
      (∃ w0, st = some w0 ∧ w.1 = w0.1) ∨
        (∃ r ∈ rows, fireOk cfg r = true ∧ w.1 = r.time) := by
  induction rows with
  | nil =>
    intro st w hw
    cases st with
    | none => simp [windowsOkAux_nil_none] at hw
    | some w0 =>
      left
      refine ⟨w0, rfl, ?_⟩
      rw [windowsOkAux_nil_some] at hw
      simp at hw
      rw [hw]
  | cons r rs ih =>
    intro st w hw
    cases hok : fireOk cfg r with
    | true =>
      cases st with
      | none =>
        rw [windowsOkAux_cons_ok_none cfg rs hok] at hw
        rcases ih _ _ hw with ⟨w0, h0, h1⟩ | ⟨r1, hr1, hok1, h1⟩
        · right
          refine ⟨r, List.mem_cons_self r rs, hok, ?_⟩
          cases h0
          exact h1
        · exact Or.inr ⟨r1, List.mem_cons_of_mem _ hr1, hok1, h1⟩
      | some w0 =>
        rw [show w0 = (w0.1, w0.2) from rfl,
          windowsOkAux_cons_ok_some cfg rs w0.1 w0.2 hok] at hw
        rcases ih _ _ hw with ⟨w1, h0, h1⟩ | ⟨r1, hr1, hok1, h1⟩
        · left
          refine ⟨w0, rfl, ?_⟩
          cases h0
          exact h1
        · exact Or.inr ⟨r1, List.mem_cons_of_mem _ hr1, hok1, h1⟩
    | false =>
      cases st with
      | none =>
        rw [windowsOkAux_cons_notok_none cfg rs hok] at hw
        rcases ih _ _ hw with ⟨w0, h0, _⟩ | ⟨r1, hr1, hok1, h1⟩
        · exact absurd h0 (by simp)
        · exact Or.inr ⟨r1, List.mem_cons_of_mem _ hr1, hok1, h1⟩
      | some w0 =>
        rw [windowsOkAux_cons_notok_some cfg rs w0 hok] at hw
        rcases List.mem_cons.mp hw with h | h
        · exact Or.inl ⟨w0, rfl, by rw [h]⟩
        · rcases ih _ _ h with ⟨w1, h0, _⟩ | ⟨r1, hr1, hok1, h1⟩
          · exact absurd h0 (by simp)
          · exact Or.inr ⟨r1, List.mem_cons_of_mem _ hr1, hok1, h1⟩

/-- With strictly increasing sample times and a pending window closed
below all remaining samples, the produced windows are well-formed
(`start ≤ end`) and chained (`end` of each below `start` of the next). -/
theorem windowsOkAux_chain (cfg : FireCfg) :
    ∀ (rows : List Row) (st : Option (ℕ × ℕ)),
      rows.Pairwise (fun a b => a.time < b.time) →
      (∀ w0, st = some w0 → w0.1 ≤ w0.2 ∧ ∀ r ∈ rows, w0.2 < r.time) →
      (windowsOkAux cfg st rows).Pairwise (fun a b => a.2 < b.1) ∧
        ∀ w ∈ windowsOkAux cfg st rows, w.1 ≤ w.2 := by
  intro rows
  induction rows with
  | nil =>
    intro st _ hst
    cases st with
    | none => simp [windowsOkAux_nil_none]
    | some w0 =>
      rw [windowsOkAux_nil_some]
      refine ⟨List.pairwise_singleton _ _, ?_⟩
      intro w hw
      simp at hw
      rw [hw]
      exact (hst w0 rfl).1
  | cons r rs ih =>
    intro st hsort hst
    have hsort' := (List.pairwise_cons.mp hsort).2
    have hhead := (List.pairwise_cons.mp hsort).1
    cases hok : fireOk cfg r with
    | true =>
      cases st with
      | none =>
        rw [windowsOkAux_cons_ok_none cfg rs hok]
        refine ih _ hsort' ?_
        intro w0 h0
        cases h0
        exact ⟨le_refl _, hhead⟩
      | some w0 =>
        rw [show w0 = (w0.1, w0.2) from rfl,
          windowsOkAux_cons_ok_some cfg rs w0.1 w0.2 hok]
        refine ih _ hsort' ?_
        intro w1 h1
        cases h1
        have h2 := hst w0 rfl
        exact ⟨le_trans h2.1 (le_of_lt (h2.2 r (List.mem_cons_self r rs))),
          hhead⟩
    | false =>
      cases st with
      | none =>
        rw [windowsOkAux_cons_notok_none cfg rs hok]
        exact ih none hsort' (by simp)
      | some w0 =>
        rw [windowsOkAux_cons_notok_some cfg rs w0 hok]
        have htail := ih none hsort' (by simp)
        have h2 := hst w0 rfl
        constructor
        · rw [List.pairwise_cons]
          refine ⟨?_, htail.1⟩
          intro w1 hw1
          rcases windowsOkAux_start_mem cfg rs none w1 hw1 with
            ⟨_, h0, _⟩ | ⟨r1, hr1, _, h1⟩
          · exact absurd h0 (by simp)
          · rw [h1]
            exact h2.2 r1 (List.mem_cons_of_mem _ hr1)
        · intro w hw
          rcases List.mem_cons.mp hw with h | h
          · rw [h]; exact h2.1
          · exact htail.2 w h

/-- A time point lying inside the pending open window is contained in
exactly one produced window. -/
theorem windowsOkAux_count_inside (cfg : FireCfg) (t : ℕ) :
    ∀ (rows : List Row) (s e : ℕ),
      rows.Pairwise (fun a b => a.time < b.time) →
      s ≤ t → t ≤ e → (∀ r ∈ rows, e < r.time) →
      ((windowsOkAux cfg (some (s, e)) rows).countP fun w =>
        decide (w.1 ≤ t ∧ t ≤ w.2)) = 1 := by
  intro rows
  induction rows with
  | nil =>
    intro s e _ hs he _
    rw [windowsOkAux_nil_some]
    simp [List.countP_cons, hs, he]
  | cons r rs ih =>
    intro s e hsort hs he hclosed
    have hsort' := (List.pairwise_cons.mp hsort).2
    have hhead := (List.pairwise_cons.mp hsort).1
    cases hok : fireOk cfg r with
    | true =>
      rw [windowsOkAux_cons_ok_some cfg rs s e hok]
      exact ih s r.time hsort' hs
        (le_of_lt (lt_of_le_of_lt he (hclosed r (List.mem_cons_self r rs))))
        hhead
    | false =>
      rw [windowsOkAux_cons_notok_some cfg rs (s, e) hok]
      rw [List.countP_cons]
      have hzero : ((windowsOkAux cfg none rs).countP fun w =>
          decide (w.1 ≤ t ∧ t ≤ w.2)) = 0 := by
        rw [List.countP_eq_zero]
        intro w hw
        rcases windowsOkAux_start_mem cfg rs none w hw with
          ⟨_, h0, _⟩ | ⟨r1, hr1, _, h1⟩
        · exact absurd h0 (by simp)
        · simp only [decide_eq_true_eq, not_and]
          intro hle _
          have : t < w.1 := by
            rw [h1]
            exact lt_of_le_of_lt he (hclosed r1 (List.mem_cons_of_mem _ hr1))
          omega
      rw [hzero]
      simp [hs, he]

/-- A rule-satisfying sample of the input is contained in exactly one
produced window. -/
theorem windowsOkAux_count_ok_row (cfg : FireCfg) :
    ∀ (rows : List Row) (st : Option (ℕ × ℕ)),
      rows.Pairwise (fun a b => a.time < b.time) →
      (∀ w0, st = some w0 → w0.1 ≤ w0.2 ∧ ∀ r ∈ rows, w0.2 < r.time) →
      ∀ r0 ∈ rows, fireOk cfg r0 = true →
      ((windowsOkAux cfg st rows).countP fun w =>
        decide (w.1 ≤ r0.time ∧ r0.time ≤ w.2)) = 1 := by
  intro rows
  induction rows with
  | nil => intro st _ _ r0 h0; simp at h0
  | cons r rs ih =>
    intro st hsort hst r0 hr0 hok0
    have hsort' := (List.pairwise_cons.mp hsort).2
    have hhead := (List.pairwise_cons.mp hsort).1
    rcases List.mem_cons.mp hr0 with heq | hmem
    · subst heq
      cases st with
      | none =>
        rw [windowsOkAux_cons_ok_none cfg rs hok0]
        exact windowsOkAux_count_inside cfg r0.time rs r0.time r0.time
          hsort' (le_refl _) (le_refl _) hhead
      | some w0 =>
        have h2 := hst w0 rfl
        rw [show w0 = (w0.1, w0.2) from rfl,
          windowsOkAux_cons_ok_some cfg rs w0.1 w0.2 hok0]
        exact windowsOkAux_count_inside cfg r0.time rs w0.1 r0.time hsort'
          (le_trans h2.1 (le_of_lt (h2.2 r0 (List.mem_cons_self r0 rs))))
          (le_refl _) hhead
    · cases hok : fireOk cfg r with
      | true =>
        cases st with
        | none =>
          rw [windowsOkAux_cons_ok_none cfg rs hok]
          refine ih _ hsort' ?_ r0 hmem hok0
          intro w0 h0
          cases h0
          exact ⟨le_refl _, hhead⟩
        | some w0 =>
          have h2 := hst w0 rfl
          rw [show w0 = (w0.1, w0.2) from rfl,
            windowsOkAux_cons_ok_some cfg rs w0.1 w0.2 hok]
          refine ih _ hsort' ?_ r0 hmem hok0
          intro w1 h1
          cases h1
          exact ⟨le_trans h2.1 (le_of_lt (h2.2 r (List.mem_cons_self r rs))),
            hhead⟩
      | false =>
        cases st with
        | none =>
          rw [windowsOkAux_cons_notok_none cfg rs hok]
          exact ih none hsort' (by simp) r0 hmem hok0
        | some w0 =>
          have h2 := hst w0 rfl
          rw [windowsOkAux_cons_notok_some cfg rs w0 hok, List.countP_cons]
          have hw0 : ¬(w0.1 ≤ r0.time ∧ r0.time ≤ w0.2) := by
            intro hc
            have : w0.2 < r0.time := h2.2 r0 (List.mem_cons_of_mem _ hmem)
            omega
          rw [ih none hsort' (by simp) r0 hmem hok0]
          simp [hw0]

/-- A rule-failing sample of the input lies inside no produced window. -/
theorem windowsOkAux_no_bad_row (cfg : FireCfg) :
    ∀ (rows : List Row) (st : Option (ℕ × ℕ)),
      rows.Pairwise (fun a b => a.time < b.time) →
      (∀ w0, st = some w0 → w0.1 ≤ w0.2 ∧ ∀ r ∈ rows, w0.2 < r.time) →
      ∀ r0 ∈ rows, fireOk cfg r0 = false →
      ∀ w ∈ windowsOkAux cfg st rows, ¬(w.1 ≤ r0.time ∧ r0.time ≤ w.2) := by
  intro rows
  induction rows with
  | nil => intro st _ _ r0 h0; simp at h0
  | cons r rs ih =>
    intro st hsort hst r0 hr0 hok0 w hw
    have hsort' := (List.pairwise_cons.mp hsort).2
    have hhead := (List.pairwise_cons.mp hsort).1
    rcases List.mem_cons.mp hr0 with hr0eq | hmem
    · subst hr0eq
      cases st with
      | none =>
        rw [windowsOkAux_cons_notok_none cfg rs hok0] at hw
        rcases windowsOkAux_start_mem cfg rs none w hw with
          ⟨_, h0, _⟩ | ⟨r1, hr1, _, h1⟩
        · exact absurd h0 (by simp)
        · intro hc
          have : r0.time < w.1 := by rw [h1]; exact hhead r1 hr1
          omega
      | some w0 =>
        have h2 := hst w0 rfl
        rw [windowsOkAux_cons_notok_some cfg rs w0 hok0] at hw
        rcases List.mem_cons.mp hw with heq | htail
        · subst heq
          intro hc
          have : w.2 < r0.time := h2.2 r0 (List.mem_cons_self r0 rs)
          omega
        · rcases windowsOkAux_start_mem cfg rs none w htail with
            ⟨_, h0, _⟩ | ⟨r1, hr1, _, h1⟩
          · exact absurd h0 (by simp)
          · intro hc
            have : r0.time < w.1 := by rw [h1]; exact hhead r1 hr1
            omega
    · cases hok : fireOk cfg r with
      | true =>
        cases st with
        | none =>
          rw [windowsOkAux_cons_ok_none cfg rs hok] at hw
          refine ih _ hsort' ?_ r0 hmem hok0 w hw
          intro w1 h1
          cases h1
          exact ⟨le_refl _, hhead⟩
        | some w0 =>
          have h2 := hst w0 rfl
          rw [show w0 = (w0.1, w0.2) from rfl,
            windowsOkAux_cons_ok_some cfg rs w0.1 w0.2 hok] at hw
          refine ih _ hsort' ?_ r0 hmem hok0 w hw
          intro w1 h1
          cases h1
          exact ⟨le_trans h2.1 (le_of_lt (h2.2 r (List.mem_cons_self r rs))),
            hhead⟩
      | false =>
        cases st with
        | none =>
          rw [windowsOkAux_cons_notok_none cfg rs hok] at hw
          exact ih none hsort' (by simp) r0 hmem hok0 w hw
        | some w0 =>
          have h2 := hst w0 rfl
          rw [windowsOkAux_cons_notok_some cfg rs w0 hok] at hw
          rcases List.mem_cons.mp hw with heq | htail
          · subst heq
            intro hc
            have : w.2 < r0.time := h2.2 r0 (List.mem_cons_of_mem _ hmem)
            omega
          · exact ih none hsort' (by simp) r0 hmem hok0 w htail

/-- Claim C1: over an ascending hourly sample sequence, the windows of
`_windows_ok` are chained (hence pairwise disjoint and sorted by start)
and well-formed, every sample satisfying the compound rule `_ok` lies in
exactly one window, and no failing sample lies in any window. -/
theorem c1_windows_partition (cfg : FireCfg) (rows : List Row)
    (hsort : rows.Pairwise fun a b => a.time < b.time) :
    (windowsOk cfg rows).Pairwise (fun a b => a.2 < b.1) ∧
      (∀ w ∈ windowsOk cfg rows, w.1 ≤ w.2) ∧
      (∀ r ∈ rows, fireOk cfg r = true →
        ((windowsOk cfg rows).countP fun w =>
          decide (w.1 ≤ r.time ∧ r.time ≤ w.2)) = 1) ∧
      (∀ r ∈ rows, fireOk cfg r = false →
        ∀ w ∈ windowsOk cfg rows, ¬(w.1 ≤ r.time ∧ r.time ≤ w.2)) := by
  have hchain := windowsOkAux_chain cfg rows none hsort (by simp)
  exact ⟨hchain.1, hchain.2,
    fun r hr hok => windowsOkAux_count_ok_row cfg rows none hsort
      (by simp) r hr hok,
    fun r hr hok => windowsOkAux_no_bad_row cfg rows none hsort
      (by simp) r hr hok⟩

/-- Witness for C1 at a concrete three-sample sequence (true, false,
true): two windows, each true sample in exactly one. -/
theorem c1_windows_partition_witness :
    (windowsOk defaultFireCfg
        [⟨840, 35, 20, 30, 0⟩, ⟨900, 10, 20, 30, 0⟩, ⟨960, 35, 20, 30, 0⟩]
      ).Pairwise (fun a b => a.2 < b.1) ∧
      (∀ w ∈ windowsOk defaultFireCfg
          [⟨840, 35, 20, 30, 0⟩, ⟨900, 10, 20, 30, 0⟩, ⟨960, 35, 20, 30, 0⟩],
        w.1 ≤ w.2) ∧
      (∀ r ∈ ([⟨840, 35, 20, 30, 0⟩, ⟨900, 10, 20, 30, 0⟩,
          ⟨960, 35, 20, 30, 0⟩] : List Row), fireOk defaultFireCfg r = true →
        ((windowsOk defaultFireCfg
            [⟨840, 35, 20, 30, 0⟩, ⟨900, 10, 20, 30, 0⟩,
              ⟨960, 35, 20, 30, 0⟩]).countP fun w =>
          decide (w.1 ≤ r.time ∧ r.time ≤ w.2)) = 1) ∧
      (∀ r ∈ ([⟨840, 35, 20, 30, 0⟩, ⟨900, 10, 20, 30, 0⟩,
          ⟨960, 35, 20, 30, 0⟩] : List Row), fireOk defaultFireCfg r = false →
        ∀ w ∈ windowsOk defaultFireCfg
            [⟨840, 35, 20, 30, 0⟩, ⟨900, 10, 20, 30, 0⟩,
              ⟨960, 35, 20, 30, 0⟩],
          ¬(w.1 ≤ r.time ∧ r.time ≤ w.2)) :=
  c1_windows_partition defaultFireCfg
    [⟨840, 35, 20, 30, 0⟩, ⟨900, 10, 20, 30, 0⟩, ⟨960, 35, 20, 30, 0⟩]
    (by decide)

/-! ## Acute-mode hysteresis -/

/-- One valid, deliverable `run_acute` invocation leaves the armed flag as
the negation of the observed point evaluation, and sends a notification
exactly when the evaluation is true while armed. -/
theorem runAcuteStep_char (cfg : FireCfg) (st : AcuteState) (inp : AcuteInput)
    (c : CurSample) (hc : inp.cur = some c) (hrows : inp.rows ≠ [])
    (hpost : inp.postOk = true) :
    (runAcuteStep cfg st inp).1.armed = !(acuteOkNow cfg c) ∧
      (runAcuteStep cfg st inp).2.length =
        if acuteOkNow cfg c && st.armed then 1 else 0 := by
  cases hr : inp.rows with
  | nil => exact absurd hr hrows
  | cons a l =>
    cases hok : acuteOkNow cfg c with
    | true =>
      cases harm : st.armed with
      | true => simp [runAcuteStep, hc, hok, harm, hr, hpost]
      | false => simp [runAcuteStep, hc, hok, harm, hr, hpost]
    | false =>
      cases harm : st.armed with
      | true => simp [runAcuteStep, hc, hok, harm, hr, hpost]
      | false => simp [runAcuteStep, hc, hok, harm, hr, hpost]

/-- Over any sequence of valid, deliverable invocations, the number of
sent notifications equals the rising-edge count of the observed point
evaluations, the edge detector primed with the negated armed flag. -/
theorem runAcuteSeq_count (cfg : FireCfg) :
    ∀ (inputs : List AcuteInput) (st : AcuteState),
      (∀ inp ∈ inputs, inp.cur.isSome ∧ inp.rows ≠ [] ∧ inp.postOk = true) →
      (runAcuteSeq cfg st inputs).2.length =
        countRises (!st.armed) (inputs.map (acuteObservedOk cfg)) := by
  intro inputs
  induction inputs with
  | nil => intro st _; simp [runAcuteSeq, countRises]
  | cons inp rest ih =>
    intro st hyp
    have hinp := hyp inp (List.mem_cons_self _ _)
    obtain ⟨c, hc⟩ := Option.isSome_iff_exists.mp hinp.1
    have hchar := runAcuteStep_char cfg st inp c hc hinp.2.1 hinp.2.2
    have hobs : acuteObservedOk cfg inp = acuteOkNow cfg c := by
      simp [acuteObservedOk, hc]
    simp only [runAcuteSeq, List.length_append, List.map_cons, countRises,
      hobs]
    rw [hchar.2, ih _ (fun i hi => hyp i (List.mem_cons_of_mem _ hi)),
      hchar.1]
    cases hok : acuteOkNow cfg c <;> cases harm : st.armed <;> simp

/-- Claim C2: starting from the initial ARMED state, across any sequence
of `run_acute` invocations with parsable current data, nonempty hourly
rows, and successful delivery, the number of notifications emitted equals
the number of false-to-true transitions of the point evaluation (a rising
edge while ARMED emits one notification and disarms; true evaluations
while DISARMED and false evaluations emit nothing). -/
theorem c2_acute_hysteresis_count (cfg : FireCfg) (inputs : List AcuteInput)
    (h : ∀ inp ∈ inputs, inp.cur.isSome ∧ inp.rows ≠ [] ∧ inp.postOk = true) :
    (runAcuteSeq cfg initialAcuteState inputs).2.length =
      risingEdges (inputs.map (acuteObservedOk cfg)) :=
  runAcuteSeq_count cfg inputs initialAcuteState h

/-- Witness for C2 on the trace true, true, false, true: two rising
edges, two notifications. -/
theorem c2_acute_hysteresis_count_witness :
    (runAcuteSeq defaultFireCfg initialAcuteState
        [c2HotInput, c2HotInput, c2CoolInput, c2HotInput]).2.length =
      risingEdges ([c2HotInput, c2HotInput, c2CoolInput, c2HotInput].map
        (acuteObservedOk defaultFireCfg)) :=
  c2_acute_hysteresis_count defaultFireCfg
    [c2HotInput, c2HotInput, c2CoolInput, c2HotInput] (by decide)

/-! ## Daily mode: validity end -/

/-- Claim C3 (code bug): on a day satisfying the rule exactly at 14:00
and 15:00, `_windows_ok` yields the single window [14:00, 15:00], but
`run_daily` computes the printed validity end with
`end_dt.replace(minute=0)`, which floors 15:00 to itself instead of
rounding up to 16:00 as the comment above it
(`runden wir auf das Ende der betroffenen Stunde(n)`) intends. -/
theorem c3_daily_end_not_rounded_up :
    windowsOk defaultFireCfg c3Rows = [(840, 900)] ∧
      dailyValidityEnd defaultFireCfg c3Rows = some 900 ∧ (900 : ℕ) ≠ 960 := by
  exact ⟨by decide, by decide, by decide⟩

/-! ## Missing samples and window continuity -/

/-- Counterexample to C8: the 15:00 sample is dropped for a null
temperature, and the rule-satisfying samples at 14:00 and 16:00 end up in
ONE window (840, 960) spanning the gap — `_windows_ok` does not treat the
missing hour as a break. -/
theorem c8_missing_hour_joins_window :
    timeseries c8Data = [⟨840, 35, 20, 30, 0⟩, ⟨960, 35, 20, 30, 30⟩] ∧
      fireOk defaultFireCfg ⟨840, 35, 20, 30, 0⟩ = true ∧
      fireOk defaultFireCfg ⟨960, 35, 20, 30, 30⟩ = true ∧
      windowsOk defaultFireCfg (timeseries c8Data) = [(840, 960)] := by
  exact ⟨by decide, by decide, by decide, by decide⟩

/-- With the open window carried in the state and every remaining sample
satisfying the rule, the scan produces that single window, ending at the
last sample's time — regardless of gaps between the times. -/
theorem windowsOkAux_all_ok (cfg : FireCfg) :
    ∀ (l : List Row) (s e : ℕ), (∀ x ∈ l, fireOk cfg x = true) →
      windowsOkAux cfg (some (s, e)) l = [(s, (l.map Row.time).getLastD e)] := by
  intro l
  induction l with
  | nil => intro s e _; simp [windowsOkAux_nil_some]
  | cons x xs ih =>
    intro s e hall
    have hx := hall x (List.mem_cons_self _ _)
    rw [windowsOkAux_cons_ok_some cfg xs s e hx,
      ih s x.time fun y hy => hall y (List.mem_cons_of_mem _ hy),
      List.map_cons, List.getLastD_cons]

/-- Amended C8: a sample whose temperature, humidity or wind mean is null
is silently dropped by `_timeseries`, and `_windows_ok` breaks only at
samples evaluating false — so consecutive retained true samples stay in
one window across a dropped hour; a sample whose only null field is the
gust is retained with the gust replaced by the wind mean. -/
theorem c8_amended :
    (∀ (d : HourlyData) (i : ℕ) (ts : ℕ) (t rh ws : ℚ),
      d.times[i]? = some ts → d.temps[i]? = some (some t) →
      d.hums[i]? = some (some rh) → d.winds[i]? = some (some ws) →
      d.gusts[i]? = some none →
      (⟨ts, t, rh, ws, ws⟩ : Row) ∈ timeseries d) ∧
      (∀ (cfg : FireCfg) (r : Row) (rs : List Row),
        (∀ x ∈ r :: rs, fireOk cfg x = true) →
        windowsOk cfg (r :: rs) =
          [(r.time, (rs.map Row.time).getLastD r.time)]) := by
  constructor
  · intro d i ts t rh ws h1 h2 h3 h4 h5
    have l1 := (List.getElem?_eq_some.mp h1).1
    have l2 := (List.getElem?_eq_some.mp h2).1
    have l3 := (List.getElem?_eq_some.mp h3).1
    have l4 := (List.getElem?_eq_some.mp h4).1
    have l5 := (List.getElem?_eq_some.mp h5).1
    refine List.mem_filterMap.mpr ⟨i, List.mem_range.mpr ?_, ?_⟩
    · simp only [lt_min_iff]
      exact ⟨⟨⟨⟨l1, l2⟩, l3⟩, l4⟩, l5⟩
    · rw [h1, h2, h3, h4, h5]
      rfl
  · intro cfg r rs hall
    rw [windowsOk, windowsOkAux_cons_ok_none cfg rs
        (hall r (List.mem_cons_self _ _)),
      windowsOkAux_all_ok cfg rs r.time r.time
        fun y hy => hall y (List.mem_cons_of_mem _ hy)]

/-- Witness for C8 amended: the null-gust 16:00 sample of `c8Data` is
retained with gust 30, and an all-true two-sample list with a gap forms
one window. -/
theorem c8_amended_witness :
    (⟨960, 35, 20, 30, 30⟩ : Row) ∈ timeseries c8Data ∧
      windowsOk defaultFireCfg [⟨840, 35, 20, 30, 0⟩, ⟨960, 35, 20, 30, 0⟩]
        = [(840, 960)] := by
  constructor
  · exact c8_amended.1 c8Data 2 960 35 20 30 (by decide) (by decide)
      (by decide) (by decide) (by decide)
  · rw [c8_amended.2 defaultFireCfg ⟨840, 35, 20, 30, 0⟩
      [⟨960, 35, 20, 30, 0⟩] (by decide)]
    decide

/-! ## Dedup lookups (dwd2divera) -/

/-- Counterexample to C5: with only the legacy bare identity `"id1"` in
the seen set, the Info lookup reports seen but the Einsatz lookup does
not, and the Einsatz channel delivers (counter 1) — the legacy key is not
accepted for the Einsatz channel. -/
theorem c5_legacy_key_einsatz_counterexample :
    ("id1" : String) ∈ (["id1"] : List String) ∧
      alreadyInfo ["id1"] "id1" "#170001" = true ∧
      alreadyEinsatz ["id1"] "id1" "#170002" = false ∧
      (runDwdMain ⟨"", [], [], "#170001", "#170002", "severe"⟩ ["id1"]
        [(⟨"id1", "h", "s", "w", "severe", "sturm"⟩, true, true)]).einsatz
        = 1 := by
  exact ⟨by decide, by decide, by decide, by decide⟩

/-- Amended C5: the Info lookup accepts the composite key or the legacy
bare identity; the Einsatz lookup accepts only the composite key. -/
theorem c5_amended (seen : List String) (ident ricInfo ricEinsatz : String) :
    (alreadyInfo seen ident ricInfo = true ↔
      (ident ++ "|" ++ ricInfo) ∈ seen ∨ ident ∈ seen) ∧
      (alreadyEinsatz seen ident ricEinsatz = true ↔
        (ident ++ "|" ++ ricEinsatz) ∈ seen) := by
  simp [alreadyInfo, alreadyEinsatz]

/-! ## Pegel threshold flag -/

/-- Once the stored flag is `true`, runs whose fetched values stay at or
above the threshold send nothing and keep the flag `true`. -/
theorem pegelRuns_above (thr : ℤ) :
    ∀ runs : List (Option ℤ × Bool),
      (∀ r ∈ runs, ∃ w, r.1 = some w ∧ thr ≤ w) →
      (pegelRuns thr true runs).1 = true ∧ (pegelRuns thr true runs).2 = 0 := by
  intro runs
  induction runs with
  | nil => intro _; exact ⟨rfl, rfl⟩
  | cons r rest ih =>
    intro h
    obtain ⟨w, hw, hthr⟩ := h r (List.mem_cons_self _ _)
    obtain ⟨cm, p⟩ := r
    simp only at hw
    subst hw
    have hd : decide (w ≥ thr) = true := by simp [ge_iff_le, hthr]
    have htail := ih fun x hx => h x (List.mem_cons_of_mem _ hx)
    simp [pegelRuns, pegelGaugeStep, hd, htail.1, htail.2]

/-- Claim C10: the persisted above-threshold flag is set to
`value ≥ threshold` regardless of the delivery outcome, so a rising edge
whose delivery failed is recorded as above and no later run re-notifies
while the level stays at or above the threshold. -/
theorem c10_pegel_flag_persistence (thr v : ℤ) (ab p1 p2 : Bool)
    (runs : List (Option ℤ × Bool)) (hv : thr ≤ v)
    (hruns : ∀ r ∈ runs, ∃ w, r.1 = some w ∧ thr ≤ w) :
    (pegelGaugeStep thr ab (some v) p1).1 = decide (v ≥ thr) ∧
      (pegelGaugeStep thr ab (some v) p1).1
        = (pegelGaugeStep thr ab (some v) p2).1 ∧
      (pegelRuns thr false ((some v, false) :: runs)).2 = 0 := by
  refine ⟨rfl, rfl, ?_⟩
  have hd : decide (v ≥ thr) = true := by simp [ge_iff_le, hv]
  have habove := pegelRuns_above thr runs hruns
  simp [pegelRuns, pegelGaugeStep, hd, habove.2]

/-- Witness for C10: Rhine gauge at 720 cm against threshold 710, the
crossing notification failing, two later above-threshold runs: zero
notifications in total. -/
theorem c10_pegel_flag_persistence_witness :
    (pegelGaugeStep 710 false (some 720) false).1 = decide ((720 : ℤ) ≥ 710) ∧
      (pegelGaugeStep 710 false (some 720) false).1
        = (pegelGaugeStep 710 false (some 720) true).1 ∧
      (pegelRuns 710 false
        ((some 720, false) :: [(some 730, true), (some 715, true)])).2 = 0 :=
  c10_pegel_flag_persistence 710 720 false false true
    [(some 730, true), (some 715, true)] (by decide)
    (by
      intro r hr
      simp only [List.mem_cons, List.not_mem_nil, or_false] at hr
      rcases hr with h | h <;> subst h <;> exact ⟨_, rfl, by decide⟩)

/-! ## Retrying transport -/

theorem retryGo_succ_some {α : Type} (resp : ℕ → Option α) (slp : ℕ → ℚ)
    (a f : ℕ) (v : α) (h : resp a = some v) :
    retryGo resp slp a (f + 1) = (some v, []) := by
  simp [retryGo, h]

theorem retryGo_succ_none {α : Type} (resp : ℕ → Option α) (slp : ℕ → ℚ)
    (a f : ℕ) (h : resp a = none) (hf : f ≠ 0) :
    retryGo resp slp a (f + 1) =
      ((retryGo resp slp (a + 1) f).1,
        slp a :: (retryGo resp slp (a + 1) f).2) := by
  simp [retryGo, h, hf]

/-- Failures on the first `f` attempts from `a` and a success right after
produce the success value and exactly the `f` scheduled sleeps. -/
theorem retryGo_spec {α : Type} (resp : ℕ → Option α) (slp : ℕ → ℚ) :
    ∀ (f a : ℕ) (v : α), resp (a + f) = some v →
      (∀ k, a ≤ k → k < a + f → resp k = none) →
      retryGo resp slp a (f + 1) =
        (some v, (List.range f).map fun i => slp (a + i)) := by
  intro f
  induction f with
  | zero =>
    intro a v hs _
    rw [retryGo_succ_some resp slp a 0 v (by rwa [Nat.add_zero] at hs)]
    simp
  | succ f ih =>
    intro a v hs hfail
    rw [retryGo_succ_none resp slp a (f + 1)
      (hfail a (le_refl a) (by omega)) (by omega)]
    rw [ih (a + 1) v (by rw [show a + 1 + f = a + (f + 1) by omega]; exact hs)
      (fun k h1 h2 => hfail k (by omega) (by omega))]
    refine Prod.ext rfl ?_
    show slp a :: (List.range f).map (fun i => slp (a + 1 + i))
      = (List.range (f + 1)).map fun i => slp (a + i)
    rw [List.range_succ_eq_map, List.map_cons, List.map_map]
    refine congrArg _ (List.map_congr_left ?_)
    intro i _
    show slp (a + 1 + i) = slp (a + (i + 1))
    congr 1
    omega

/-- When every attempt fails, the loop ends with the definitive failure
value `none`. -/
theorem retryGo_none {α : Type} (resp : ℕ → Option α) (slp : ℕ → ℚ)
    (hall : ∀ k, resp k = none) :
    ∀ f a, (retryGo resp slp a f).1 = none := by
  intro f
  induction f with
  | zero => intro a; rfl
  | succ f ih =>
    intro a
    by_cases hf : f = 0
    · subst hf
      simp [retryGo, hall a]
    · rw [retryGo_succ_none resp slp a f (hall a) hf]
      exact ih (a + 1)

/-- Counterexample to C6: `fetch_forecast` failing on attempts 1–4 and
succeeding on attempt 5 sleeps 1.5·k seconds after attempt k; its fourth
sleep is 6 s, below the 2^(4−1) = 8 s the claim guarantees for every
retrying-transport call. -/
theorem c6_linear_backoff_counterexample :
    (fetchForecastRetry (fun k => if k = 5 then some (0 : ℚ) else none) 5).2
        = [3 / 2, 3, 9 / 2, 6] ∧ (6 : ℚ) < 2 ^ (4 - 1 : ℕ) := by
  constructor
  · rw [show (5 : ℕ) = 4 + 1 from rfl,
      fetchForecastRetry,
      retryGo_spec _ _ 4 1 (0 : ℚ) (by norm_num)
        (fun k h1 h2 => by
          have : ¬(k = 5) := by omega
          simp [this])]
    norm_num [List.range_succ]
  · norm_num

/-- Amended C6: the dwd2divera-style transports back off with
`2^(k−1) + jitter` (so with nonnegative jitter, a success on attempt N is
preceded by exactly N−1 sleeps, each ≥ 2^(k−1)) and return `none` after
the final failure; fire_danger_watch's `fetch_forecast` follows the same
loop but sleeps `1.5·k` after failed attempt k. -/
theorem c6_amended (N : ℕ) (resp resp2 : ℕ → Option ℚ) (jit : ℕ → ℚ) (v : ℚ)
    (hN : 1 ≤ N) (hjit : ∀ k, 0 ≤ jit k)
    (hfail : ∀ k, 1 ≤ k → k < N → resp k = none) (hsucc : resp N = some v)
    (hall : ∀ k, resp2 k = none) :
    (getJsonWithRetries resp jit N).1 = some v ∧
      (getJsonWithRetries resp jit N).2.length = N - 1 ∧
      (∀ q ∈ (getJsonWithRetries resp jit N).2, ∃ k, 1 ≤ k ∧
        q = 2 ^ (k - 1) + jit k ∧ (2 : ℚ) ^ (k - 1) ≤ q) ∧
      (getJsonWithRetries resp2 jit N).1 = none ∧
      (fetchForecastRetry resp N).2
        = (List.range (N - 1)).map fun i : ℕ => 3 / 2 * ((i : ℚ) + 1) := by
  obtain ⟨n, rfl⟩ : ∃ n, N = n + 1 := ⟨N - 1, by omega⟩
  have hs1 : resp (1 + n) = some v := by rwa [Nat.add_comm 1 n]
  have hf1 : ∀ k, 1 ≤ k → k < 1 + n → resp k = none := fun k h1 h2 =>
    hfail k h1 (by omega)
  have hjson := retryGo_spec resp (fun k => 2 ^ (k - 1) + jit k) n 1 v hs1 hf1
  have hfire := retryGo_spec resp (fun k => 3 / 2 * (k : ℚ)) n 1 v hs1 hf1
  refine ⟨?_, ?_, ?_, ?_, ?_⟩
  · rw [getJsonWithRetries, hjson]
  · rw [getJsonWithRetries, hjson]
    simp
  · intro q hq
    rw [getJsonWithRetries, hjson] at hq
    obtain ⟨i, _, hiq⟩ := List.mem_map.mp hq
    refine ⟨1 + i, by omega, ?_, ?_⟩
    · rw [← hiq]
    · rw [← hiq]
      show (2 : ℚ) ^ (1 + i - 1) ≤ 2 ^ (1 + i - 1) + jit (1 + i)
      have h0 := hjit (1 + i)
      linarith
  · rw [getJsonWithRetries]
    exact retryGo_none resp2 _ hall (n + 1) 1
  · rw [fetchForecastRetry, hfire]
    simp only [Nat.add_sub_cancel]
    apply List.map_congr_left
    intro i _
    push_cast
    ring

/-- Witness for C6 amended at N = 2 with constant jitter 1/4. -/
theorem c6_amended_witness :
    (getJsonWithRetries (fun k => if k = 2 then some (1 : ℚ) else none)
        (fun _ => 1 / 4) 2).1 = some 1 ∧
      (getJsonWithRetries (fun k => if k = 2 then some (1 : ℚ) else none)
        (fun _ => 1 / 4) 2).2.length = 2 - 1 ∧
      (∀ q ∈ (getJsonWithRetries (fun k => if k = 2 then some (1 : ℚ) else none)
          (fun _ => 1 / 4) 2).2, ∃ k, 1 ≤ k ∧
        q = 2 ^ (k - 1) + (fun _ : ℕ => (1 : ℚ) / 4) k ∧ (2 : ℚ) ^ (k - 1) ≤ q) ∧
      (getJsonWithRetries (fun _ : ℕ => (none : Option ℚ))
        (fun _ => 1 / 4) 2).1 = none ∧
      (fetchForecastRetry (fun k => if k = 2 then some (1 : ℚ) else none) 2).2
        = (List.range (2 - 1)).map fun i : ℕ => 3 / 2 * ((i : ℚ) + 1) :=
  c6_amended 2 (fun k => if k = 2 then some (1 : ℚ) else none)
    (fun _ => none) (fun _ => 1 / 4) 1 (by norm_num)
    (fun k => by norm_num)
    (fun k h1 h2 => by
      have : ¬(k = 2) := by omega
      simp [this])
    rfl (fun k => rfl)

/-! ## Dispatcher commit discipline -/

theorem string_append_left_cancel {s a b : String} (h : s ++ a = s ++ b) :
    a = b := by
  have hd := congrArg String.data h
  simp [String.data_append] at hd
  exact String.ext hd

/-- Keys newly present after processing one warning stem from a confirmed
successful delivery on the corresponding channel. -/
theorem processWarning_commit_success (cfg : DwdCfg) (seen : List String)
    (st : DwdRunState) (w : Warn) (okI okE : Bool) :
    ∀ k ∈ (processWarning cfg seen st w okI okE).newSeen,
      k ∈ st.newSeen ∨
        (k = identOf w ++ "|" ++ cfg.ricInfo ∧ okI = true) ∨
        (k = identOf w ++ "|" ++ cfg.ricEinsatz ∧ okE = true) := by
  intro k hk
  simp only [processWarning] at hk
  split_ifs at hk
  all_goals try simp only [List.mem_cons] at hk
  all_goals tauto

/-- Membership of the Einsatz composite key after processing one warning
is decided by the Einsatz channel's own filter, dedup lookup and delivery
outcome — the Info outcome `okI` does not appear. -/
theorem processWarning_einsatz_mem (cfg : DwdCfg) (seen : List String)
    (st : DwdRunState) (w : Warn) (okI okE : Bool)
    (hric : cfg.ricInfo ≠ cfg.ricEinsatz) :
    (identOf w ++ "|" ++ cfg.ricEinsatz)
        ∈ (processWarning cfg seen st w okI okE).newSeen ↔
      (identOf w ++ "|" ++ cfg.ricEinsatz) ∈ st.newSeen ∨
        (passesFiltersGlobal cfg w = true ∧ isUnwetterForRic2 cfg w = true ∧
          alreadyEinsatz seen (identOf w) cfg.ricEinsatz = false ∧
          okE = true) := by
  have hkne : identOf w ++ "|" ++ cfg.ricEinsatz
      ≠ identOf w ++ "|" ++ cfg.ricInfo :=
    fun hc => hric (string_append_left_cancel hc).symm
  simp only [processWarning]
  split_ifs with h1 h2 h3 h4 h5 h6 <;>
    simp_all [List.mem_cons, hkne, Bool.not_eq_false]

/-- In alarm_broadcast, the single record key is committed exactly when at
least one configured channel delivered. -/
theorem alarmRun_commit_iff (seenA : List String) (key : String)
    (sc tc okN okT : Bool) (h : key ∉ seenA) :
    key ∈ (alarmRun seenA key sc tc okN okT).1 ↔
      (sc && okN || tc && okT) = true := by
  simp only [alarmRun]
  rw [if_neg h]
  split_ifs with hs
  · simp [hs]
  · simp only [Bool.not_eq_true] at hs
    simp [hs, h]

/-- Counterexample to C4: in alarm_broadcast one shared key serves both
channels; with the sub-unit news delivered and the Telegram delivery
failed, the key is committed anyway, and a later run skips the record
entirely — the failed channel is never retried. -/
theorem c4_shared_key_counterexample :
    alarmRun [] "alarm:1" true true true false = (["alarm:1"], true, false) ∧
      alarmRun ["alarm:1"] "alarm:1" true true true true
        = (["alarm:1"], false, false) := by
  exact ⟨by decide, by decide⟩

/-- Amended C4: in dwd2divera, per-channel keys are committed only on that
channel's confirmed success and the Einsatz channel's commit is
independent of the Info outcome; in alarm_broadcast, the single
per-record key is committed exactly when at least one channel succeeded,
so only a record failing on all channels stays eligible. -/
theorem c4_amended (cfg : DwdCfg) (seen : List String) (st : DwdRunState)
    (w : Warn) (okI okE : Bool) (hric : cfg.ricInfo ≠ cfg.ricEinsatz) :
    (∀ k ∈ (processWarning cfg seen st w okI okE).newSeen,
      k ∈ st.newSeen ∨
        (k = identOf w ++ "|" ++ cfg.ricInfo ∧ okI = true) ∨
        (k = identOf w ++ "|" ++ cfg.ricEinsatz ∧ okE = true)) ∧
      ((identOf w ++ "|" ++ cfg.ricEinsatz)
          ∈ (processWarning cfg seen st w okI okE).newSeen ↔
        (identOf w ++ "|" ++ cfg.ricEinsatz) ∈ st.newSeen ∨
          (passesFiltersGlobal cfg w = true ∧ isUnwetterForRic2 cfg w = true ∧
            alreadyEinsatz seen (identOf w) cfg.ricEinsatz = false ∧
            okE = true)) ∧
      (∀ (seenA : List String) (key : String) (sc tc okN okT : Bool),
        key ∉ seenA →
        (key ∈ (alarmRun seenA key sc tc okN okT).1 ↔
          (sc && okN || tc && okT) = true)) :=
  ⟨processWarning_commit_success cfg seen st w okI okE,
    processWarning_einsatz_mem cfg seen st w okI okE hric,
    fun seenA key sc tc okN okT h => alarmRun_commit_iff seenA key sc tc okN okT h⟩

/-- Witness for C4 amended: default channel configuration, empty stores,
Info delivery succeeding and Einsatz delivery failing. -/
theorem c4_amended_witness :
    (∀ k ∈ (processWarning ⟨"", [], [], "#170001", "#170002", "severe"⟩ []
        ⟨[], 0, 0, 0⟩ ⟨"id2", "h", "s", "w", "severe", "sturm"⟩ true
        false).newSeen,
      k ∈ (⟨[], 0, 0, 0⟩ : DwdRunState).newSeen ∨
        (k = identOf ⟨"id2", "h", "s", "w", "severe", "sturm"⟩ ++ "|"
            ++ "#170001" ∧ true = true) ∨
        (k = identOf ⟨"id2", "h", "s", "w", "severe", "sturm"⟩ ++ "|"
            ++ "#170002" ∧ false = true)) ∧
      ((identOf ⟨"id2", "h", "s", "w", "severe", "sturm"⟩ ++ "|" ++ "#170002")
          ∈ (processWarning ⟨"", [], [], "#170001", "#170002", "severe"⟩ []
            ⟨[], 0, 0, 0⟩ ⟨"id2", "h", "s", "w", "severe", "sturm"⟩ true
            false).newSeen ↔
        (identOf ⟨"id2", "h", "s", "w", "severe", "sturm"⟩ ++ "|" ++ "#170002")
            ∈ (⟨[], 0, 0, 0⟩ : DwdRunState).newSeen ∨
          (passesFiltersGlobal ⟨"", [], [], "#170001", "#170002", "severe"⟩
              ⟨"id2", "h", "s", "w", "severe", "sturm"⟩ = true ∧
            isUnwetterForRic2 ⟨"", [], [], "#170001", "#170002", "severe"⟩
              ⟨"id2", "h", "s", "w", "severe", "sturm"⟩ = true ∧
            alreadyEinsatz []
              (identOf ⟨"id2", "h", "s", "w", "severe", "sturm"⟩)
              "#170002" = false ∧
            false = true)) ∧
      (∀ (seenA : List String) (key : String) (sc tc okN okT : Bool),
        key ∉ seenA →
        (key ∈ (alarmRun seenA key sc tc okN okT).1 ↔
          (sc && okN || tc && okT) = true)) :=
  c4_amended ⟨"", [], [], "#170001", "#170002", "severe"⟩ [] ⟨[], 0, 0, 0⟩
    ⟨"id2", "h", "s", "w", "severe", "sturm"⟩ true false (by decide)

/-! ## Warnlagebericht cache -/

/-- Counterexample to C7: a cache entry written by a marker-bearing fetch
stores the same fingerprint and is within TTL, yet a subsequent fetch that
extracts no marker replaces the entry (save flag `true`) instead of
reusing it — reuse additionally requires the stored entry to be
marker-less. -/
theorem c7_marker_cache_ttl_counterexample :
    c7MarkerCache.hash = some (id "T") ∧
      ((200 : ℤ) - c7MarkerCache.savedTs.getD 0 < 1000) ∧
      fetchWarnlageCached id 1000 c7MarkerCache 200 (some (none, "T"))
        = (some "T", ⟨none, some "T", some "T", some 200, true⟩, true) := by
  exact ⟨by decide, by decide, by decide⟩

/-- Amended C7: with the TTL shortcut not taken and a nonempty extracted
text: on a fetched marker, the cached text is returned without a replace
iff the stored marker equals it and a nonempty cached text exists,
otherwise the entry is replaced by the new marker, text, fingerprint and
timestamp; with no fetched marker, the cached text is returned without a
replace iff the stored entry is itself marker-less, its fingerprint
matches, a nonempty cached text exists and the TTL is unexpired,
otherwise the entry is replaced and the new text returned. -/
theorem c7_amended (hashFn : String → String) (ttl nowTs : ℤ)
    (cache : WarnCache) (chosen : String) (hch : chosen ≠ "")
    (hsc : warnShortcut ttl cache nowTs = false) :
    (∀ m : String,
      (((fetchWarnlageCached hashFn ttl cache nowTs
            (some (some m, chosen))).2.2 = false ∧
          (fetchWarnlageCached hashFn ttl cache nowTs
            (some (some m, chosen))).1 = cache.text) ↔
        (cache.issue = some m ∧ cacheTextOk cache = true)) ∧
      (¬(cache.issue = some m ∧ cacheTextOk cache = true) →
        fetchWarnlageCached hashFn ttl cache nowTs (some (some m, chosen))
          = (some chosen,
            ⟨some m, some chosen, some (hashFn chosen), some nowTs, false⟩,
            true))) ∧
      ((((fetchWarnlageCached hashFn ttl cache nowTs
            (some (none, chosen))).2.2 = false ∧
          (fetchWarnlageCached hashFn ttl cache nowTs
            (some (none, chosen))).1 = cache.text) ↔
        (cache.noMarker = true ∧ cache.hash = some (hashFn chosen) ∧
          cacheTextOk cache = true ∧ nowTs - cache.savedTs.getD 0 < ttl)) ∧
      (¬(cache.noMarker = true ∧ cache.hash = some (hashFn chosen) ∧
          cacheTextOk cache = true ∧ nowTs - cache.savedTs.getD 0 < ttl) →
        fetchWarnlageCached hashFn ttl cache nowTs (some (none, chosen))
          = (some chosen,
            ⟨none, some chosen, some (hashFn chosen), some nowTs, true⟩,
            true))) := by
  constructor
  · intro m
    by_cases hcond : cache.issue = some m ∧ cacheTextOk cache = true
    · have heq : fetchWarnlageCached hashFn ttl cache nowTs
          (some (some m, chosen)) = (cache.text, cache, false) := by
        simp [fetchWarnlageCached, hsc, hch, hcond]
      simp [heq, hcond]
    · have heq : fetchWarnlageCached hashFn ttl cache nowTs
          (some (some m, chosen)) = (some chosen,
            ⟨some m, some chosen, some (hashFn chosen), some nowTs, false⟩,
            true) := by
        simp [fetchWarnlageCached, hsc, hch, hcond]
      simp [heq, hcond]
  · by_cases hcond : cache.noMarker = true ∧ cache.hash = some (hashFn chosen)
        ∧ cacheTextOk cache = true ∧ nowTs - cache.savedTs.getD 0 < ttl
    · have heq : fetchWarnlageCached hashFn ttl cache nowTs
          (some (none, chosen)) = (cache.text, cache, false) := by
        simp [fetchWarnlageCached, hsc, hch, hcond]
      simp [heq, hcond]
    · have heq : fetchWarnlageCached hashFn ttl cache nowTs
          (some (none, chosen)) = (some chosen,
            ⟨none, some chosen, some (hashFn chosen), some nowTs, true⟩,
            true) := by
        simp [fetchWarnlageCached, hsc, hch, hcond]
      simp [heq, hcond]

/-- Witness for C7 amended on the marker-bearing stored entry
`c7MarkerCache` with a differently-parsed new text. -/
theorem c7_amended_witness :
    ((fetchWarnlageCached id 1000 c7MarkerCache 200
          (some (some "A", "U"))).2.2 = false ∧
        (fetchWarnlageCached id 1000 c7MarkerCache 200
          (some (some "A", "U"))).1 = c7MarkerCache.text) ↔
      (c7MarkerCache.issue = some "A" ∧ cacheTextOk c7MarkerCache = true) :=
  ((c7_amended id 1000 200 c7MarkerCache "U" (by decide) (by decide)).1 "A").1

/-! ## Redaction of failure logs -/

/-- Counterexample to C9: the final-failure log lines of dwd2divera and
pegel_watch embed the HTTP response body verbatim. -/
theorem c9_body_in_log_counterexample :
    dwdLogLine "Infogruppe" (dwdPostErrMsg 500 "RESPONSE-BODY")
        = "[Fehler] DIVERA-Post (Infogruppe): DIVERA API Fehler 500: RESPONSE-BODY"
      ∧ pegelLogLine 5 (pegelPostErrMsg 503 "GEHEIM")
        = "[Warn] DIVERA send failed after 5 tries: HTTP 503: GEHEIM" := by
  exact ⟨by decide, by decide⟩

/-- Amended C9: the dwd2divera and pegel_watch failure logs consist of a
fixed prefix followed by the response body truncated to 500 resp. 400
characters; alarm_broadcast logs only the HTTP status and the exception
class name. -/
theorem c9_amended (status retries : ℕ) (body channel excName : String) :
    (∃ p, dwdLogLine channel (dwdPostErrMsg status body)
      = p ++ strTake body 500) ∧
      (∃ p, pegelLogLine retries (pegelPostErrMsg status body)
        = p ++ strTake body 400) ∧
      alarmPostLogLine retries excName
        = "[Warn] POST failed after " ++ toString retries ++ " tries: "
          ++ excName ∧
      alarmJpostErrMsg status = "HTTP " ++ toString status := by
  refine ⟨⟨"[Fehler] DIVERA-Post (" ++ channel ++ "): "
      ++ ("DIVERA API Fehler " ++ toString status ++ ": "), ?_⟩,
    ⟨"[Warn] DIVERA send failed after " ++ toString retries ++ " tries: "
      ++ ("HTTP " ++ toString status ++ ": "), ?_⟩, rfl, rfl⟩
  · simp [dwdLogLine, dwdPostErrMsg, String.append_assoc]
  · simp [pegelLogLine, pegelPostErrMsg, String.append_assoc]

end DwdDivera
